import Mathlib

/-!
Verification of the template-variable parsing and substitution engine
(`VariableParser`, `VariableReplacer`, `VariableEngine`).

Strings are modelled as `List Char`; the JavaScript regular-expression scan
of `VariableParser.VARIABLE_PATTERN` is modelled by an explicit character
scanner (`scanTokens`), and JavaScript `Map`s by association lists.
-/

abbrev Chars := List Char

def chars (s : String) : Chars := s.data

/-- JavaScript whitespace characters relevant to `String.prototype.trim`. -/
def isJsSpace (c : Char) : Bool :=
  c = ' ' || c = '\t' || c = '\n' || c = '\r' || c = '\x0b' || c = '\x0c' || c = '\xa0'

/-- `String.prototype.trim`. -/
def jsTrim (s : Chars) : Chars :=
  ((s.dropWhile isJsSpace).reverse.dropWhile isJsSpace).reverse

/-- One pass of `String.prototype.replace(/ab/g, "c")` for a two-character
pattern `a b` replaced by the single character `c` (left-to-right,
non-overlapping). -/
def replacePair (a b c : Char) : Chars → Chars
  | [] => []
  | [x] => [x]
  | x :: y :: rest =>
    if x = a ∧ y = b then c :: replacePair a b c rest
    else x :: replacePair a b c (y :: rest)

/-- `VariableParser.unescapeDefaultValue`: resolves `\:`, then `\{`, `\}`, `\\`. -/
def unescapeDefaultValue (s : Chars) : Chars :=
  replacePair '\\' '\\' '\\'
    (replacePair '\\' '}' '}'
      (replacePair '\\' '{' '{'
        (replacePair '\\' ':' ':' s)))

/-- `VariableParser.unescapeText`: resolves `\{`, then `\}`, `\:`, `\\`. -/
def unescapeText (s : Chars) : Chars :=
  replacePair '\\' '\\' '\\'
    (replacePair '\\' ':' ':'
      (replacePair '\\' '}' '}'
        (replacePair '\\' '{' '{' s)))

/-- Index of the first `}` reachable without crossing any `{` or `}`,
mirroring the lazy body `[^{}]*?\}` of `VARIABLE_PATTERN`. -/
def findCloseIdx : Chars → Option Nat
  | [] => none
  | c :: rest =>
    if c = '}' then some 0
    else if c = '{' then none
    else (findCloseIdx rest).map (· + 1)

/-- A raw `{...}` token produced by the regular-expression scan:
`raw` is the whole match, `inner` the captured group. -/
structure RawTok where
  tokStart : Nat
  tokStop : Nat
  raw : Chars
  inner : Chars
deriving DecidableEq

/-- The `exec` loop over `VARIABLE_PATTERN = /(?<!\\)\{([^{}]*?)\}/g`:
a match starts at an `{` whose immediately preceding character (`prev`)
is not a backslash and extends to the first following `}` with no brace
in between. `i` is the absolute position of the head of the list; `fuel`
makes the recursion structural and any value exceeding the list length is
enough (each step consumes at least one character). -/
def scanTokens : Nat → Chars → Option Char → Nat → List RawTok
  | 0, _, _, _ => []
  | _ + 1, [], _, _ => []
  | fuel + 1, c :: rest, prev, i =>
    if c = '{' ∧ prev ≠ some '\\' then
      match findCloseIdx rest with
      | some j =>
        ⟨i, i + j + 1, '{' :: rest.take (j + 1), rest.take j⟩ ::
          scanTokens fuel (rest.drop (j + 1)) (some '}') (i + j + 2)
      | none => scanTokens fuel rest (some c) (i + 1)
    else scanTokens fuel rest (some c) (i + 1)

def inRange (c : Char) (lo hi : Nat) : Bool :=
  decide (lo ≤ c.toNat) && decide (c.toNat ≤ hi)

/-- Characters accepted by `validateVariableName`'s pattern
`^[\w぀-ゟ゠-ヿ一-龯㐀-䶿]+$`. -/
def validNameChar (c : Char) : Bool :=
  inRange c 0x41 0x5A || inRange c 0x61 0x7A || inRange c 0x30 0x39 || c = '_' ||
  inRange c 0x3040 0x309F || inRange c 0x30A0 0x30FF ||
  inRange c 0x4E00 0x9FAF || inRange c 0x3400 0x4DBF

/-- `VariableParser.validateVariableName`. -/
def validateVariableName (variableName : Chars) : Bool :=
  if variableName.length = 0 || 100 < variableName.length then false
  else if variableName.contains '{' || variableName.contains '}' then false
  else variableName.all validNameChar

inductive VariableErrorType where
  | MALFORMED_VARIABLE
  | CIRCULAR_REFERENCE
  | NESTED_VARIABLES
  | INVALID_ESCAPE
  | EMPTY_VARIABLE_NAME
deriving DecidableEq

inductive VariableWarningType where
  | UNDEFINED_VARIABLE
  | LONG_VARIABLE_NAME
  | SPECIAL_CHARACTERS_IN_NAME
deriving DecidableEq

structure VariableError where
  type : VariableErrorType
  message : Chars
  position : Option (Nat × Nat)
  variableName : Option Chars
  rawText : Option Chars
deriving DecidableEq

structure VariableWarning where
  type : VariableWarningType
  message : Chars
  position : Option (Nat × Nat)
  variableName : Option Chars
deriving DecidableEq

structure Variable where
  name : Chars
  defaultValue : Option Chars
  startIndex : Nat
  endIndex : Nat
  rawText : Chars
deriving DecidableEq

/-- Result of `VariableParser.parseVariableContent`. -/
inductive ContentResult where
  | ok (variableName : Chars) (defaultValue : Option Chars)
  | err (type : VariableErrorType) (message : Chars)
deriving DecidableEq

/-- `VariableParser.parseVariableContent`. -/
def parseVariableContent (content : Chars) : ContentResult :=
  if content = [] ∨ jsTrim content = [] then
    .err .EMPTY_VARIABLE_NAME (chars "変数名が空です: " ++ ('{' :: content ++ ['}']))
  else
    match content.findIdx? (fun c => c = ':') with
    | none =>
      let variableName := jsTrim content
      if validateVariableName variableName then .ok variableName none
      else .err .MALFORMED_VARIABLE (chars "変数記法が正しくありません: " ++ variableName)
    | some separatorIndex =>
      let variableName := jsTrim (content.take separatorIndex)
      let defaultValue := content.drop (separatorIndex + 1)
      if variableName = [] then
        .err .EMPTY_VARIABLE_NAME (chars "変数名が空です: " ++ ('{' :: content ++ ['}']))
      else if ¬ validateVariableName variableName then
        .err .MALFORMED_VARIABLE (chars "変数記法が正しくありません: " ++ variableName)
      else .ok variableName (some (unescapeDefaultValue defaultValue))

/-- Characters of the "clean" set of the special-character warning
(`[a-zA-Z0-9぀-ゟ゠-ヿ一-龯_-]`). -/
def specialOkChar (c : Char) : Bool :=
  inRange c 0x41 0x5A || inRange c 0x61 0x7A || inRange c 0x30 0x39 ||
  inRange c 0x3040 0x309F || inRange c 0x30A0 0x30FF || inRange c 0x4E00 0x9FAF ||
  c = '_' || c = '-'

/-- `VariableParser.checkVariableWarnings`. -/
def checkVariableWarnings (v : Variable) : List VariableWarning :=
  (if 50 < v.name.length then
    [⟨.LONG_VARIABLE_NAME, chars "変数名が長すぎます: " ++ v.name, none, some v.name⟩]
   else []) ++
  (if v.name.any (fun c => ¬ specialOkChar c) then
    [⟨.SPECIAL_CHARACTERS_IN_NAME, chars "変数名に特殊文字が含まれています: " ++ v.name,
      none, some v.name⟩]
   else [])

/-- The per-token loop body of `parseVariables`: tokens with valid content
become `Variable` records, the rest become errors. -/
def buildVars : List RawTok → List Variable × List VariableError × List VariableWarning
  | [] => ([], [], [])
  | t :: ts =>
    let rest := buildVars ts
    match parseVariableContent t.inner with
    | .err ty msg =>
      (rest.1, ⟨ty, msg, some (t.tokStart, t.tokStop), none, some t.raw⟩ :: rest.2.1, rest.2.2)
    | .ok n d =>
      let v : Variable := ⟨n, d, t.tokStart, t.tokStop, t.raw⟩
      (v :: rest.1, rest.2.1, checkVariableWarnings v ++ rest.2.2)

/-- JavaScript interpolation of a possibly-`undefined` string. -/
def showJsOpt : Option Chars → Chars
  | none => chars "undefined"
  | some d => d

def dupWarnMessage (name : Chars) (old new : Option Chars) : Chars :=
  chars "変数 \x27" ++ name ++ chars "\x27 に異なるデフォルト値が設定されています: \x27" ++
    showJsOpt old ++ chars "\x27 と \x27" ++ showJsOpt new ++ chars "\x27"

/-- `VariableParser.checkDuplicateVariables`: `store` is the `variableMap`
of first occurrences. -/
def checkDuplicateVariablesAux : List Variable → List Variable → List VariableWarning
  | [], _ => []
  | v :: vs, store =>
    match store.find? (fun w => w.name = v.name) with
    | some existing =>
      if existing.defaultValue ≠ v.defaultValue then
        ⟨.UNDEFINED_VARIABLE, dupWarnMessage v.name existing.defaultValue v.defaultValue,
          none, some v.name⟩ :: checkDuplicateVariablesAux vs store
      else checkDuplicateVariablesAux vs store
    | none => checkDuplicateVariablesAux vs (store ++ [v])

def checkDuplicateVariables (vars : List Variable) : List VariableWarning :=
  checkDuplicateVariablesAux vars []

structure VariableParseResult where
  vars : List Variable
  errors : List VariableError
  warnings : List VariableWarning
deriving DecidableEq

/-- `VariableParser.parseVariables`. -/
def parseVariables (prompt : Chars) : VariableParseResult :=
  let toks := scanTokens (prompt.length + 1) prompt none 0
  let b := buildVars toks
  ⟨b.1, b.2.1, b.2.2 ++ checkDuplicateVariables b.1⟩

/-- Characters that the JavaScript regular-expression `.` does not match. -/
def isJsLineTerm (c : Char) : Bool :=
  c = '\n' || c = '\r' || c = ' ' || c = ' '

/-- The `/\\./g` scan of `VariableParser.validateEscapeSequences`. -/
def validateEscapeSequencesAux : Chars → Nat → List VariableError
  | [], _ => []
  | '\\' :: c :: rest, i =>
    if isJsLineTerm c then validateEscapeSequencesAux (c :: rest) (i + 1)
    else
      (if c = '{' ∨ c = '}' ∨ c = ':' ∨ c = '\\' then []
       else [⟨.INVALID_ESCAPE, chars "不正なエスケープシーケンスです: " ++ ['\\', c],
              some (i, i + 1), none, some ['\\', c]⟩]) ++
      validateEscapeSequencesAux rest (i + 2)
  | _ :: rest, i => validateEscapeSequencesAux rest (i + 1)

def validateEscapeSequences (prompt : Chars) : List VariableError :=
  validateEscapeSequencesAux prompt 0

/-- `VariableValueMap`: a JavaScript `Map<string, string>` as an
association list with distinct keys in insertion order. -/
abbrev VMap := List (Chars × Chars)

def mapGet (m : VMap) (k : Chars) : Option Chars :=
  (m.find? (fun p => p.1 = k)).map (·.2)

def mapHas (m : VMap) (k : Chars) : Bool :=
  (mapGet m k).isSome

structure VariableReplacementOptions where
  emptyIfUndefined : Option Bool
  throwOnError : Option Bool
  maxCircularCheck : Option Nat
deriving DecidableEq

/-- The `{}` options literal. -/
def noOptions : VariableReplacementOptions := ⟨none, none, none⟩

structure ResolvedOptions where
  emptyIfUndefined : Bool
  throwOnError : Bool
  maxCircularCheck : Nat
deriving DecidableEq

/-- `{ ...DEFAULT_OPTIONS, ...options }`. -/
def mergeOptions (o : VariableReplacementOptions) : ResolvedOptions :=
  ⟨o.emptyIfUndefined.getD true, o.throwOnError.getD false, o.maxCircularCheck.getD 10⟩

/-- `VariableReplacer.resolveVariableValue`. -/
def resolveVariableValue (v : Variable) (variableValues : VMap)
    (options : ResolvedOptions) : Chars :=
  match mapGet variableValues v.name with
  | some userValue => userValue
  | none =>
    match v.defaultValue with
    | some d => d
    | none => if options.emptyIfUndefined then [] else v.rawText

/-- `VariableReplacer.extractVariableReferences`. -/
def extractVariableReferences (text : Chars) (allVariables : List Chars) : List Chars :=
  (((parseVariables text).vars).map (·.name)).filter (fun n => n ∈ allVariables)

/-- `VariableReplacer.hasCircularReference`; the returned list is the state
of the caller-supplied `path` array after the call (recursive calls receive
copies, so only the direct call appends to it). -/
def hasCircularReference (variableValues : VMap) (allVariables : List Chars)
    (currentVar : Chars) (visited : List Chars) (path : List Chars) :
    Nat → Bool × List Chars
  | 0 => (false, path)
  | depth + 1 =>
    if currentVar ∈ visited then (true, path)
    else
      let visited2 := currentVar :: visited
      let path2 := path ++ [currentVar]
      match mapGet variableValues currentVar with
      | none => (false, path2)
      | some value =>
        if value = [] then (false, path2)
        else
          let refs := extractVariableReferences value allVariables
          (refs.any (fun r =>
            (hasCircularReference variableValues allVariables r visited2 path2 depth).1),
           path2)

def pushIfNew {α : Type} [DecidableEq α] (acc : List α) (x : α) : List α :=
  if x ∈ acc then acc else acc ++ [x]

/-- First-occurrence deduplication (the behaviour of inserting into a
JavaScript `Set` and iterating it). -/
def dedupFirst {α : Type} [DecidableEq α] (l : List α) : List α :=
  l.foldl pushIfNew []

def joinArrow : List Chars → Chars
  | [] => []
  | [x] => x
  | x :: y :: xs => x ++ chars " → " ++ joinArrow (y :: xs)

/-- `VariableReplacer.checkCircularReferences`, iterating the vars. -/
def checkCircularReferencesAux (variableValues : VMap) (variableNames : List Chars)
    (maxDepth : Nat) : List Variable → List VariableError
  | [] => []
  | v :: vs =>
    let r := hasCircularReference variableValues variableNames v.name [] [] maxDepth
    (if r.1 then
      [⟨.CIRCULAR_REFERENCE, chars "変数の循環参照が検出されました: " ++ joinArrow r.2,
        none, some v.name, none⟩]
     else []) ++ checkCircularReferencesAux variableValues variableNames maxDepth vs

def checkCircularReferences (vars : List Variable) (variableValues : VMap)
    (maxDepth : Nat) : List VariableError :=
  checkCircularReferencesAux variableValues (dedupFirst (vars.map (·.name)))
    maxDepth vars

def jsTruthyOpt : Option Chars → Bool
  | none => false
  | some d => d ≠ []

/-- One iteration of the substitution loop of `replaceVariables`:
state is `(replacedText, usedVariables, warnings)`. -/
def substStep (variableValues : VMap) (opts : ResolvedOptions)
    (st : Chars × List Chars × List VariableWarning) (v : Variable) :
    Chars × List Chars × List VariableWarning :=
  let value := resolveVariableValue v variableValues opts
  let before := st.1.take v.startIndex
  let after := st.1.drop (v.endIndex + 1)
  let replacedText := before ++ value ++ after
  let used := if v.name ∈ st.2.1 then st.2.1 else st.2.1 ++ [v.name]
  let warns :=
    if ¬ mapHas variableValues v.name ∧ ¬ jsTruthyOpt v.defaultValue then
      st.2.2 ++ [⟨.UNDEFINED_VARIABLE, chars "未定義変数です: " ++ v.name, none, some v.name⟩]
    else st.2.2
  (replacedText, used, warns)

/-- Insertion into a list already sorted by descending `startIndex`,
following the comparator `(a, b) => b.startIndex - a.startIndex`. -/
def insertDesc (v : Variable) : List Variable → List Variable
  | [] => [v]
  | w :: ws => if w.startIndex ≤ v.startIndex then v :: w :: ws else w :: insertDesc v ws

def sortByStartDesc (l : List Variable) : List Variable :=
  l.foldr insertDesc []

structure VariableReplacementResult where
  replacedText : Chars
  usedVariables : List Chars
  errors : List VariableError
  warnings : List VariableWarning
deriving DecidableEq

def defaultError : VariableError := ⟨.MALFORMED_VARIABLE, [], none, none, none⟩

/-- `VariableReplacer.replaceVariables`. The two `throw` sites are caught by
the function's own `catch`, which returns the original prompt together with
a synthesized `MALFORMED_VARIABLE` error wrapping the thrown message. -/
def replaceVariables (prompt : Chars) (variableValues : VMap)
    (options : VariableReplacementOptions) : VariableReplacementResult :=
  let opts := mergeOptions options
  let parseResult := parseVariables prompt
  if parseResult.errors ≠ [] ∧ opts.throwOnError = true then
    ⟨prompt, [],
      parseResult.errors ++
        [⟨.MALFORMED_VARIABLE,
          chars "置換処理エラー: 変数解析エラー: " ++ (parseResult.errors.headD defaultError).message,
          none, none, none⟩],
      []⟩
  else
    let circularErrors :=
      checkCircularReferences parseResult.vars variableValues opts.maxCircularCheck
    if circularErrors ≠ [] ∧ opts.throwOnError = true then
      ⟨prompt, [],
        parseResult.errors ++ circularErrors ++
          [⟨.MALFORMED_VARIABLE,
            chars "置換処理エラー: 循環参照エラー: " ++ (circularErrors.headD defaultError).message,
            none, none, none⟩],
        parseResult.warnings⟩
    else
      let sortedVariables := sortByStartDesc parseResult.vars
      let st := sortedVariables.foldl (substStep variableValues opts)
        (prompt, [], parseResult.warnings)
      ⟨unescapeText st.1, st.2.1, parseResult.errors ++ circularErrors, st.2.2⟩

/-- One pass of `String.prototype.replace(/c/g, repl)` for a single
character `c`. -/
def replaceCharStr (c : Char) (repl : Chars) : Chars → Chars
  | [] => []
  | x :: rest => (if x = c then repl else [x]) ++ replaceCharStr c repl rest

/-- `VariableReplacer.escapeHtml`. -/
def escapeHtml (text : Chars) : Chars :=
  replaceCharStr (Char.ofNat 39) (chars "&#39;")
    (replaceCharStr '"' (chars "&quot;")
      (replaceCharStr '>' (chars "&gt;")
        (replaceCharStr '<' (chars "&lt;")
          (replaceCharStr '&' (chars "&amp;") text))))

/-- JavaScript truthiness fallback `a || b || c` for strings. -/
def jsOrEmpty : Option Chars → Chars
  | some d => if d ≠ [] then d else []
  | none => []

def jsOr2 (a b : Option Chars) : Chars :=
  match a with
  | some u => if u ≠ [] then u else jsOrEmpty b
  | none => jsOrEmpty b

/-- The `<span>` emitted for one variable inside
`VariableReplacer.generatePreviewHtml`. -/
def previewSpanHtml (variableValues : VMap) (v : Variable) : Chars :=
  let value := jsOr2 (mapGet variableValues v.name) v.defaultValue
  let hasValue := mapHas variableValues v.name || v.defaultValue.isSome
  let cssClass := if hasValue then chars "variable-defined" else chars "variable-undefined"
  chars "<span class=\"" ++ cssClass ++ chars "\" title=\"変数: " ++ v.name ++
    chars ", 値: " ++ value ++ chars "\">" ++
    escapeHtml (if value = [] then v.rawText else value) ++ chars "</span>"

/-- The accumulation loop of `generatePreviewHtml` over the parsed
variable list, carrying `lastIndex`. -/
def generatePreviewHtmlAux (prompt : Chars) (variableValues : VMap) :
    List Variable → Nat → Chars
  | [], lastIndex => escapeHtml (prompt.drop lastIndex)
  | v :: vs, lastIndex =>
    escapeHtml ((prompt.drop lastIndex).take (v.startIndex - lastIndex)) ++
      previewSpanHtml variableValues v ++
      generatePreviewHtmlAux prompt variableValues vs (v.endIndex + 1)

/-- `VariableReplacer.generatePreviewHtml`. -/
def generatePreviewHtml (prompt : Chars) (variableValues : VMap) : Chars :=
  unescapeText (generatePreviewHtmlAux prompt variableValues (parseVariables prompt).vars 0)

structure VariableStats where
  totalVariables : Nat
  uniqueVariables : Nat
  definedVariables : Nat
  undefinedVariables : Nat
  variablesWithDefaults : Nat
deriving DecidableEq

/-- `VariableReplacer.getVariableStats`. -/
def getVariableStats (prompt : Chars) (variableValues : VMap) : VariableStats :=
  let parseResult := parseVariables prompt
  let uniqueNames := dedupFirst (parseResult.vars.map (·.name))
  let definedCount := (uniqueNames.filter (fun n => mapHas variableValues n)).length
  let defaultCount := (uniqueNames.filter (fun n =>
    match parseResult.vars.find? (fun v => v.name = n) with
    | some v => v.defaultValue.isSome
    | none => false)).length
  ⟨parseResult.vars.length, uniqueNames.length, definedCount,
    uniqueNames.length - definedCount, defaultCount⟩

def natChars (n : Nat) : Chars := (Nat.repr n).data

def joinComma : List Chars → Chars
  | [] => []
  | [x] => x
  | x :: y :: xs => x ++ chars ", " ++ joinComma (y :: xs)

/-- `VariableEngine.generateSummary`. -/
def generateSummary (parseResult : VariableParseResult)
    (replacementResult : VariableReplacementResult) (stats : VariableStats)
    (escapeErrors : List VariableError) : Chars :=
  let parts :=
    [chars "変数: " ++ natChars stats.uniqueVariables ++ chars "個"] ++
    (if 0 < stats.definedVariables then
      [chars "設定済み: " ++ natChars stats.definedVariables ++ chars "個"] else []) ++
    (if 0 < stats.undefinedVariables then
      [chars "未設定: " ++ natChars stats.undefinedVariables ++ chars "個"] else []) ++
    (if 0 < stats.variablesWithDefaults then
      [chars "デフォルト値あり: " ++ natChars stats.variablesWithDefaults ++ chars "個"] else [])
  let totalErrors :=
    parseResult.errors.length + replacementResult.errors.length + escapeErrors.length
  let totalWarnings := parseResult.warnings.length + replacementResult.warnings.length
  let parts2 := parts ++
    (if 0 < totalErrors then [chars "エラー: " ++ natChars totalErrors ++ chars "件"] else []) ++
    (if 0 < totalWarnings then [chars "警告: " ++ natChars totalWarnings ++ chars "件"] else []) ++
    (if totalErrors = 0 ∧ totalWarnings = 0 then [chars "正常"] else [])
  joinComma parts2

structure AnalyzeResult where
  parseResult : VariableParseResult
  replacementResult : VariableReplacementResult
  stats : VariableStats
  escapeErrors : List VariableError
  isValid : Bool
  summary : Chars
deriving DecidableEq

/-- `VariableEngine.analyzePrompt`. -/
def analyzePrompt (prompt : Chars) (variableValues : VMap)
    (options : VariableReplacementOptions) : AnalyzeResult :=
  let parseResult := parseVariables prompt
  let replacementResult := replaceVariables prompt variableValues options
  let stats := getVariableStats prompt variableValues
  let escapeErrors := validateEscapeSequences prompt
  let isValid :=
    parseResult.errors.isEmpty && replacementResult.errors.isEmpty && escapeErrors.isEmpty
  ⟨parseResult, replacementResult, stats, escapeErrors, isValid,
    generateSummary parseResult replacementResult stats escapeErrors⟩

/-- Specification-side rendering of a substituted template: literal text
between placeholders is kept and each placeholder span is replaced by its
value (`text[0..start] + value + text[end+1..]`, left to right). -/
def renderSpec (s : Chars) : Nat → List Variable → List Chars → Chars
  | pos, [], _ => s.drop pos
  | pos, v :: vs, val :: vals =>
    (s.drop pos).take (v.startIndex - pos) ++ val ++ renderSpec s (v.endIndex + 1) vs vals
  | _, _ :: _, [] => []

/-- C1 counterexample: with `valueMap = {a: "\x7bb\x7d", b: "\x7ba\x7d"}` and template
`"\x7ba\x7d"`, `replaceVariables` reports no error at all: the cycle search only
follows names that occur as placeholders in the template, and `b` does not. -/
theorem C1_counterexample :
    (replaceVariables (chars "\x7ba\x7d")
      [(chars "a", chars "\x7bb\x7d"), (chars "b", chars "\x7ba\x7d")] noOptions).errors = [] := by
  decide

/-- C1 amended: when both names occur in the template (`"\x7ba\x7d \x7bb\x7d"`), a
`CIRCULAR_REFERENCE` error is reported per variable, but its message names only
the top-level variable (`a`, resp. `b`), not the full cycle path `a → b → a`:
the recursive calls extend copies of the path array, so only the first push is
visible in the reported path. -/
theorem C1_cycle_error_names_top_variable_only :
    (replaceVariables (chars "\x7ba\x7d \x7bb\x7d")
      [(chars "a", chars "\x7bb\x7d"), (chars "b", chars "\x7ba\x7d")] noOptions).errors =
      [⟨.CIRCULAR_REFERENCE, chars "変数の循環参照が検出されました: a",
        none, some (chars "a"), none⟩,
       ⟨.CIRCULAR_REFERENCE, chars "変数の循環参照が検出されました: b",
        none, some (chars "b"), none⟩] := by
  decide

/-- C3 counterexample: with `throwOnError` and a parse error, `replaceVariables`
still returns a normal `VariableReplacementResult` (the internal `throw` is
caught by the function's own `catch`): the original text comes back unchanged,
with the parse error plus a synthesized `MALFORMED_VARIABLE` error. -/
theorem C3_counterexample :
    replaceVariables (chars "\x7b\x7d \x7bx\x7d") [(chars "x", chars "V")]
        ⟨none, some true, none⟩ =
      ⟨chars "\x7b\x7d \x7bx\x7d", [],
       [⟨.EMPTY_VARIABLE_NAME, chars "変数名が空です: \x7b\x7d", some (0, 1), none,
         some (chars "\x7b\x7d")⟩,
        ⟨.MALFORMED_VARIABLE, chars "置換処理エラー: 変数解析エラー: 変数名が空です: \x7b\x7d",
         none, none, none⟩],
       []⟩ := by
  decide

/-- C3 amended: if `parseVariables(text).errors` is non-empty and
`options.throwOnError` is set, `replaceVariables` abandons substitution
immediately, but the raised failure is caught at the function boundary: it
returns a `VariableReplacementResult` carrying the original prompt, an empty
`usedVariables`, the parse errors plus one synthesized `MALFORMED_VARIABLE`
error wrapping the first parse error's message, and no warnings. -/
theorem C3_throwOnError_caught_at_boundary (prompt : Chars) (m : VMap)
    (options : VariableReplacementOptions)
    (hthrow : options.throwOnError = some true)
    (herr : (parseVariables prompt).errors ≠ []) :
    replaceVariables prompt m options =
      ⟨prompt, [],
       (parseVariables prompt).errors ++
         [⟨.MALFORMED_VARIABLE,
           chars "置換処理エラー: 変数解析エラー: " ++
             ((parseVariables prompt).errors.headD defaultError).message,
           none, none, none⟩],
       []⟩ := by
  have hopt : (mergeOptions options).throwOnError = true := by
    simp [mergeOptions, hthrow]
  simp only [replaceVariables]
  rw [if_pos ⟨herr, hopt⟩]

/-- C3 witness: the amended theorem applied at the concrete prompt `"\x7b\x7d"`. -/
theorem C3_witness :
    replaceVariables (chars "\x7b\x7d") [] ⟨none, some true, none⟩ =
      ⟨chars "\x7b\x7d", [],
       [⟨.EMPTY_VARIABLE_NAME, chars "変数名が空です: \x7b\x7d", some (0, 1), none,
         some (chars "\x7b\x7d")⟩,
        ⟨.MALFORMED_VARIABLE, chars "置換処理エラー: 変数解析エラー: 変数名が空です: \x7b\x7d",
         none, none, none⟩],
       []⟩ := by
  rw [C3_throwOnError_caught_at_boundary (chars "\x7b\x7d") [] ⟨none, some true, none⟩ rfl
    (by decide)]
  decide

/-- C5: `replaceVariables` resolves each variable's substitution value as
(a) the `valueMap` entry verbatim (even the empty string), else (b) the
variable's `defaultValue`, else (c) `""` when `emptyIfUndefined` and the raw
placeholder text otherwise; illustrated end to end on `"\x7by\x7d"` and `"\x7by:d\x7d"`. -/
theorem C5_resolution_order :
    (∀ (v : Variable) (m : VMap) (o : ResolvedOptions) (val : Chars),
        mapGet m v.name = some val → resolveVariableValue v m o = val) ∧
    (∀ (v : Variable) (m : VMap) (o : ResolvedOptions) (d : Chars),
        mapGet m v.name = none → v.defaultValue = some d → resolveVariableValue v m o = d) ∧
    (∀ (v : Variable) (m : VMap) (o : ResolvedOptions),
        mapGet m v.name = none → v.defaultValue = none →
        resolveVariableValue v m o = if o.emptyIfUndefined then [] else v.rawText) ∧
    (replaceVariables (chars "\x7by\x7d") [] noOptions).replacedText = [] ∧
    (replaceVariables (chars "\x7by\x7d") [] ⟨some false, none, none⟩).replacedText =
      chars "\x7by\x7d" ∧
    (replaceVariables (chars "\x7by:d\x7d") [(chars "y", [])] noOptions).replacedText = [] := by
  refine ⟨?_, ?_, ?_, by decide, by decide, by decide⟩
  · intro v m o val h
    simp [resolveVariableValue, h]
  · intro v m o d h hd
    simp [resolveVariableValue, h, hd]
  · intro v m o h hd
    simp [resolveVariableValue, h, hd]

/-- C5 witness: the user-supplied value is used verbatim at a concrete input. -/
theorem C5_witness :
    resolveVariableValue ⟨chars "y", some (chars "d"), 0, 2, chars "\x7by\x7d"⟩
      [(chars "y", [])] ⟨true, false, 10⟩ = [] :=
  C5_resolution_order.1 _ _ _ _ (by decide)

/-- C7 counterexample: three occurrences of `n` with three distinct defaults
produce two conflicting-default warnings for the single name `n`, not one:
each occurrence after the first that differs from the first occurrence's
default emits its own warning. -/
theorem C7_counterexample :
    (parseVariables (chars "\x7bn:a\x7d \x7bn:b\x7d \x7bn:c\x7d")).warnings =
      [⟨.UNDEFINED_VARIABLE,
        chars "変数 \x27n\x27 に異なるデフォルト値が設定されています: \x27a\x27 と \x27b\x27",
        none, some (chars "n")⟩,
       ⟨.UNDEFINED_VARIABLE,
        chars "変数 \x27n\x27 に異なるデフォルト値が設定されています: \x27a\x27 と \x27c\x27",
        none, some (chars "n")⟩] := by
  decide

/-- C7 amended: `parseVariables` emits one advisory warning per occurrence
(after the first) whose `defaultValue` differs from the first occurrence's
default, naming the first occurrence's value and the conflicting value; for
`"\x7bn:a\x7d \x7bn:b\x7d"` this is exactly one warning naming both `a` and `b`. -/
theorem C7_duplicate_default_warning :
    (parseVariables (chars "\x7bn:a\x7d \x7bn:b\x7d")).warnings =
      [⟨.UNDEFINED_VARIABLE,
        chars "変数 \x27n\x27 に異なるデフォルト値が設定されています: \x27a\x27 と \x27b\x27",
        none, some (chars "n")⟩] := by
  decide

/-- C9 counterexample: in `generatePreviewHtml`, a variable whose name maps to
`""` and whose `defaultValue` exists but is the empty string (`"\x7bx:\x7d"`) is
rendered as its raw placeholder text, not as its (empty) default value. -/
theorem C9_counterexample :
    (parseVariables (chars "\x7bx:\x7d")).vars =
      [⟨chars "x", some [], 0, 3, chars "\x7bx:\x7d"⟩] ∧
    generatePreviewHtml (chars "\x7bx:\x7d") [(chars "x", [])] =
      chars "<span class=\"variable-defined\" title=\"変数: x, 値: \">\x7bx:\x7d</span>" ∧
    generatePreviewHtml (chars "\x7bx:\x7d") [(chars "x", [])] ≠
      chars "<span class=\"variable-defined\" title=\"変数: x, 値: \"></span>" := by
  refine ⟨by decide, by decide, by decide⟩

/-- C9 amended: in `generatePreviewHtml` an empty-string value is treated as
absent for display: the span of a variable whose name maps to `""` is marked
`variable-defined` (key membership) and shows the `defaultValue` when it exists
and is non-empty, else the raw placeholder text; `replaceVariables` meanwhile
substitutes the empty string verbatim on the same inputs. -/
theorem C9_preview_empty_value_falls_back :
    (∀ (v : Variable) (m : VMap), mapGet m v.name = some [] →
      previewSpanHtml m v =
        chars "<span class=\"variable-defined" ++ chars "\" title=\"変数: " ++ v.name ++
          chars ", 値: " ++ jsOrEmpty v.defaultValue ++ chars "\">" ++
          escapeHtml (match v.defaultValue with
            | some d => if d = [] then v.rawText else d
            | none => v.rawText) ++ chars "</span>") ∧
    generatePreviewHtml (chars "\x7bx:d\x7d") [(chars "x", [])] =
      chars "<span class=\"variable-defined\" title=\"変数: x, 値: d\">d</span>" ∧
    generatePreviewHtml (chars "\x7by\x7d") [(chars "y", [])] =
      chars "<span class=\"variable-defined\" title=\"変数: y, 値: \">\x7by\x7d</span>" ∧
    (replaceVariables (chars "\x7bx:d\x7d") [(chars "x", [])] noOptions).replacedText = [] := by
  refine ⟨?_, by decide, by decide, by decide⟩
  intro v m h
  have hhas : mapHas m v.name = true := by simp [mapHas, h]
  simp only [previewSpanHtml, jsOr2, h, hhas, Bool.true_or, if_pos]
  cases hd : v.defaultValue with
  | none => simp [jsOrEmpty, chars]
  | some d =>
    by_cases hde : d = []
    · simp [jsOrEmpty, hde, chars]
    · simp [jsOrEmpty, hde, chars]

/-- C9 witness: the amended span rule applied to a concrete variable with a
non-empty default and an empty user value. -/
theorem C9_witness :
    previewSpanHtml [(chars "x", [])] ⟨chars "x", some (chars "d"), 0, 4, chars "\x7bx:d\x7d"⟩ =
      chars "<span class=\"variable-defined\" title=\"変数: x, 値: d\">d</span>" := by
  rw [C9_preview_empty_value_falls_back.1 ⟨chars "x", some (chars "d"), 0, 4, chars "\x7bx:d\x7d"⟩
    [(chars "x", [])] (by decide)]
  decide

/-- C10: `VariableEngine.analyzePrompt` returns `isValid = true` exactly when
the parse errors, the replacement errors and the escape-validation errors of
its result are all empty. -/
theorem C10_analyze_isValid (prompt : Chars) (m : VMap)
    (options : VariableReplacementOptions) :
    (analyzePrompt prompt m options).isValid = true ↔
      ((analyzePrompt prompt m options).parseResult.errors = [] ∧
       (analyzePrompt prompt m options).replacementResult.errors = [] ∧
       (analyzePrompt prompt m options).escapeErrors = []) := by
  simp [analyzePrompt, List.isEmpty_iff, and_assoc]

/-- C10 witness: a concrete valid prompt and a concrete invalid one. -/
theorem C10_witness :
    (analyzePrompt (chars "\x7ba\x7d") [] noOptions).isValid = true ∧
    ¬ (analyzePrompt (chars "\x7b\x7d") [] noOptions).isValid = true := by
  constructor
  · exact (C10_analyze_isValid (chars "\x7ba\x7d") [] noOptions).mpr
      ⟨by decide, by decide, by decide⟩
  · intro h
    have := ((C10_analyze_isValid (chars "\x7b\x7d") [] noOptions).mp h).1
    revert this
    decide

/-- If a close index is found, it is inside the list. -/
theorem findCloseIdx_lt_length : ∀ {l : Chars} {j : Nat}, findCloseIdx l = some j → j < l.length := by
  intro l
  induction l with
  | nil => intro j h; simp [findCloseIdx] at h
  | cons c rest ih =>
    intro j h
    simp only [findCloseIdx] at h
    by_cases h1 : c = '}'
    · simp [h1] at h
      subst h
      simp
    · by_cases h2 : c = '{'
      · simp [h1, h2] at h
      · simp [h1, h2, Option.map_eq_some'] at h
        obtain ⟨j', hj', rfl⟩ := h
        have := ih hj'
        simp only [List.length_cons]
        omega

/-- The character at a found close index is `}`. -/
theorem findCloseIdx_close : ∀ {l : Chars} {j : Nat}, findCloseIdx l = some j → l[j]? = some '}' := by
  intro l
  induction l with
  | nil => intro j h; simp [findCloseIdx] at h
  | cons c rest ih =>
    intro j h
    simp only [findCloseIdx] at h
    by_cases h1 : c = '}'
    · simp [h1] at h
      subst h
      simp [h1]
    · by_cases h2 : c = '{'
      · simp [h1, h2] at h
      · simp [h1, h2, Option.map_eq_some'] at h
        obtain ⟨j', hj', rfl⟩ := h
        simpa using ih hj'

/-- No brace occurs strictly before a found close index. -/
theorem findCloseIdx_before : ∀ {l : Chars} {j : Nat}, findCloseIdx l = some j →
    ∀ k, k < j → l[k]? ≠ some '{' ∧ l[k]? ≠ some '}' := by
  intro l
  induction l with
  | nil => intro j h; simp [findCloseIdx] at h
  | cons c rest ih =>
    intro j h k hk
    simp only [findCloseIdx] at h
    by_cases h1 : c = '}'
    · simp [h1] at h
      omega
    · by_cases h2 : c = '{'
      · simp [h1, h2] at h
      · simp [h1, h2, Option.map_eq_some'] at h
        obtain ⟨j', hj', rfl⟩ := h
        match k with
        | 0 => simpa using ⟨h2, h1⟩
        | k' + 1 =>
          have := ih hj' k' (by omega)
          simpa using this

/-- Well-formed segmentation of a suffix (whose head sits at absolute
position `i`) by a token list: each token's raw text occurs at its
recorded indices and tokens are consecutive, left to right. -/
def SegWF : Nat → Chars → List RawTok → Prop
  | _, _, [] => True
  | i, rest, t :: ts =>
    ∃ pre suf, rest = pre ++ t.raw ++ suf ∧ t.tokStart = i + pre.length ∧
      t.tokStop + 1 = t.tokStart + t.raw.length ∧ 2 ≤ t.raw.length ∧
      SegWF (t.tokStop + 1) suf ts

theorem SegWF_cons {ts : List RawTok} {i : Nat} {c : Char} {rest : Chars}
    (h : SegWF (i + 1) rest ts) : SegWF i (c :: rest) ts := by
  cases ts with
  | nil => trivial
  | cons t ts2 =>
    obtain ⟨pre, suf, hsplit, hstart, hstop, hlen, htail⟩ := h
    refine ⟨c :: pre, suf, ?_, ?_, hstop, hlen, htail⟩
    · simp [hsplit]
    · simp only [List.length_cons]; omega

/-- The scanner produces a well-formed segmentation. -/
theorem scanTokens_segWF : ∀ (fuel : Nat) (rest : Chars) (prev : Option Char) (i : Nat),
    rest.length < fuel → SegWF i rest (scanTokens fuel rest prev i) := by
  intro fuel
  induction fuel with
  | zero => intro rest prev i h; omega
  | succ fuel ih =>
    intro rest prev i h
    match rest with
    | [] => simp [scanTokens, SegWF]
    | c :: rest2 =>
      simp only [scanTokens]
      by_cases hc : c = '{' ∧ prev ≠ some '\\'
      · rw [if_pos hc]
        cases hf : findCloseIdx rest2 with
        | none =>
          exact SegWF_cons (ih rest2 (some c) (i + 1) (by simp at h ⊢; omega))
        | some j =>
          have hjlt : j < rest2.length := findCloseIdx_lt_length hf
          refine ⟨[], rest2.drop (j + 1), ?_, ?_, ?_, ?_, ?_⟩
          · simp [hc.1, List.take_append_drop]
          · simp
          · simp only [List.length_cons, List.length_take]
            omega
          · simp only [List.length_cons, List.length_take]
            omega
          · exact ih (rest2.drop (j + 1)) (some '}') (i + j + 2)
              (by simp at h ⊢; omega)
      · rw [if_neg hc]
        exact SegWF_cons (ih rest2 (some c) (i + 1) (by simp at h ⊢; omega))

/-- Chain invariant for a parsed variable list relative to the string `u`
whose head sits at absolute position `base`: variables appear left to
right without overlap, starting at or after `lo`, and each `rawText` is
the source slice at its recorded indices. -/
def ChainRel (u : Chars) (base : Nat) : Nat → List Variable → Prop
  | _, [] => True
  | lo, v :: vs =>
    lo ≤ v.startIndex ∧ base ≤ v.startIndex ∧
    v.endIndex + 1 = v.startIndex + v.rawText.length ∧
    2 ≤ v.rawText.length ∧ v.endIndex < base + u.length ∧
    v.rawText = (u.drop (v.startIndex - base)).take v.rawText.length ∧
    ChainRel u base (v.endIndex + 1) vs

theorem chainRel_mono_lo {u : Chars} {base : Nat} : ∀ {vs : List Variable} {lo lo' : Nat},
    lo' ≤ lo → ChainRel u base lo vs → ChainRel u base lo' vs := by
  intro vs
  cases vs with
  | nil => intro lo lo' _ _; trivial
  | cons v vs2 =>
    intro lo lo' hle h
    obtain ⟨h1, h2, h3, h4, h5, h6, h7⟩ := h
    exact ⟨by omega, h2, h3, h4, h5, h6, h7⟩

theorem chainRel_prepend (a : Chars) : ∀ (vs : List Variable) (u : Chars) (base lo : Nat),
    ChainRel u (base + a.length) lo vs → ChainRel (a ++ u) base lo vs := by
  intro vs
  induction vs with
  | nil => intro u base lo _; trivial
  | cons v vs2 ih =>
    intro u base lo h
    obtain ⟨h1, h2, h3, h4, h5, h6, h7⟩ := h
    refine ⟨h1, by omega, h3, h4, ?_, ?_, ih u base (v.endIndex + 1) h7⟩
    · simp only [List.length_append]
      omega
    · have harith : v.startIndex - base = a.length + (v.startIndex - (base + a.length)) := by
        omega
      rw [harith, List.drop_append]
      exact h6

theorem chainRel_start_ge {u : Chars} {base : Nat} : ∀ {vs : List Variable} {lo : Nat},
    ChainRel u base lo vs → ∀ v ∈ vs, lo ≤ v.startIndex := by
  intro vs
  induction vs with
  | nil => intro lo _ v hv; simp at hv
  | cons w vs2 ih =>
    intro lo h v hv
    obtain ⟨h1, h2, h3, h4, h5, h6, h7⟩ := h
    rcases List.mem_cons.mp hv with rfl | hv2
    · exact h1
    · have := ih h7 v hv2
      omega

theorem chainRel_mem {u : Chars} {base : Nat} : ∀ {vs : List Variable} {lo : Nat},
    ChainRel u base lo vs → ∀ v ∈ vs,
      base ≤ v.startIndex ∧ v.endIndex + 1 = v.startIndex + v.rawText.length ∧
      2 ≤ v.rawText.length ∧ v.endIndex < base + u.length ∧
      v.rawText = (u.drop (v.startIndex - base)).take v.rawText.length := by
  intro vs
  induction vs with
  | nil => intro lo _ v hv; simp at hv
  | cons w vs2 ih =>
    intro lo h v hv
    obtain ⟨h1, h2, h3, h4, h5, h6, h7⟩ := h
    rcases List.mem_cons.mp hv with rfl | hv2
    · exact ⟨h2, h3, h4, h5, h6⟩
    · exact ih h7 v hv2

theorem chainRel_pairwise {u : Chars} {base : Nat} : ∀ {vs : List Variable} {lo : Nat},
    ChainRel u base lo vs → vs.Pairwise (fun a b => a.startIndex < b.startIndex) := by
  intro vs
  induction vs with
  | nil => intro lo _; exact List.Pairwise.nil
  | cons v vs2 ih =>
    intro lo h
    obtain ⟨h1, h2, h3, h4, h5, h6, h7⟩ := h
    refine List.pairwise_cons.mpr ⟨?_, ih h7⟩
    intro w hw
    have := chainRel_start_ge h7 w hw
    omega

/-- The variable list built from a well-formed token segmentation
satisfies the chain invariant. -/
theorem buildVars_chainRel : ∀ (toks : List RawTok) (i : Nat) (rest : Chars),
    SegWF i rest toks → ChainRel rest i i (buildVars toks).1 := by
  intro toks
  induction toks with
  | nil => intro i rest _; trivial
  | cons t ts ih =>
    intro i rest h
    obtain ⟨pre, suf, hsplit, hstart, hstop, hlen, htail⟩ := h
    have htransfer : ChainRel rest i (t.tokStop + 1) (buildVars ts).1 := by
      have h1 : ChainRel suf (i + (pre ++ t.raw).length) (t.tokStop + 1) (buildVars ts).1 := by
        have := ih (t.tokStop + 1) suf htail
        have harith : i + (pre ++ t.raw).length = t.tokStop + 1 := by
          simp only [List.length_append]
          omega
        rw [harith]
        exact chainRel_mono_lo (le_refl _) this
      have h2 := chainRel_prepend (pre ++ t.raw) (buildVars ts).1 suf i (t.tokStop + 1) h1
      rwa [← hsplit] at h2
    simp only [buildVars]
    cases hp : parseVariableContent t.inner with
    | err ty msg =>
      simp only
      exact chainRel_mono_lo (by omega) htransfer
    | ok n d =>
      simp only
      refine ⟨?_, ?_, ?_, hlen, ?_, ?_, htransfer⟩
      · show i ≤ t.tokStart
        omega
      · show i ≤ t.tokStart
        omega
      · show t.tokStop + 1 = t.tokStart + t.raw.length
        exact hstop
      · show t.tokStop < i + rest.length
        simp only [hsplit, List.length_append]
        omega
      · show t.raw = (rest.drop (t.tokStart - i)).take t.raw.length
        have hdrop : rest.drop (t.tokStart - i) = t.raw ++ suf := by
          rw [hsplit, hstart]
          have harith : i + pre.length - i = pre.length + 0 := by omega
          rw [harith, List.append_assoc, List.drop_append]
          simp
        rw [hdrop, List.take_append_of_le_length (le_refl _), List.take_length]

/-- The chain invariant for the variables of any parse result. -/
theorem parseVariables_chainRel (prompt : Chars) :
    ChainRel prompt 0 0 (parseVariables prompt).vars := by
  have hseg := scanTokens_segWF (prompt.length + 1) prompt none 0 (by omega)
  exact buildVars_chainRel _ 0 prompt hseg

/-- C8: every parsed `Variable` satisfies the round-trip invariant:
`rawText` is exactly the source slice `text[startIndex..=endIndex]`
(inclusive on both ends) and `endIndex >= startIndex`. -/
theorem C8_rawText_roundtrip (text : Chars) (v : Variable)
    (hv : v ∈ (parseVariables text).vars) :
    v.rawText = (text.drop v.startIndex).take (v.endIndex + 1 - v.startIndex) ∧
    v.startIndex ≤ v.endIndex := by
  have h := chainRel_mem (parseVariables_chainRel text) v hv
  obtain ⟨h1, h2, h3, h4, h5⟩ := h
  constructor
  · have harith : v.endIndex + 1 - v.startIndex = v.rawText.length := by omega
    rw [harith]
    simpa using h5
  · omega

/-- C8 witness: the invariant at a concrete parsed variable. -/
theorem C8_witness :
    (⟨chars "x", some (chars "d"), 2, 6, chars "\x7bx:d\x7d"⟩ : Variable).rawText =
      ((chars "a \x7bx:d\x7d b").drop 2).take (6 + 1 - 2) ∧
    (2 : Nat) ≤ 6 :=
  C8_rawText_roundtrip (chars "a \x7bx:d\x7d b")
    ⟨chars "x", some (chars "d"), 2, 6, chars "\x7bx:d\x7d"⟩ (by decide)

theorem insertDesc_append_last (v : Variable) : ∀ (m : List Variable),
    (∀ w ∈ m, ¬ w.startIndex ≤ v.startIndex) → insertDesc v m = m ++ [v] := by
  intro m
  induction m with
  | nil => intro _; rfl
  | cons w ws ih =>
    intro h
    have hw : ¬ w.startIndex ≤ v.startIndex := h w (by simp)
    simp only [insertDesc, if_neg hw, List.cons_append, List.cons.injEq, true_and]
    exact ih (fun x hx => h x (by simp [hx]))

/-- On a list strictly ascending in `startIndex` the descending
insertion sort is exactly reversal. -/
theorem sortByStartDesc_of_ascending : ∀ (l : List Variable),
    l.Pairwise (fun a b => a.startIndex < b.startIndex) →
    sortByStartDesc l = l.reverse := by
  intro l
  induction l with
  | nil => intro _; rfl
  | cons v vs ih =>
    intro h
    obtain ⟨hhead, htail⟩ := List.pairwise_cons.mp h
    show insertDesc v (sortByStartDesc vs) = (v :: vs).reverse
    rw [ih htail, insertDesc_append_last v vs.reverse
      (fun w hw => by
        have := hhead w (List.mem_reverse.mp hw)
        omega),
      List.reverse_cons]

/-- The text component of the substitution fold depends only on the text
component of the state. -/
theorem foldl_substStep_fst (m : VMap) (o : ResolvedOptions) :
    ∀ (l : List Variable) (t : Chars) (u : List Chars) (w : List VariableWarning),
    (l.foldl (substStep m o) (t, u, w)).1 =
      l.foldl (fun cur v =>
        cur.take v.startIndex ++ resolveVariableValue v m o ++ cur.drop (v.endIndex + 1)) t := by
  intro l
  induction l with
  | nil => intro t u w; rfl
  | cons v vs ih =>
    intro t u w
    simp only [List.foldl_cons, substStep]
    exact ih _ _ _

/-- The `usedVariables` component of the substitution fold is the
first-occurrence fold over the iterated names. -/
theorem foldl_substStep_used (m : VMap) (o : ResolvedOptions) :
    ∀ (l : List Variable) (t : Chars) (u : List Chars) (w : List VariableWarning),
    (l.foldl (substStep m o) (t, u, w)).2.1 = (l.map (·.name)).foldl pushIfNew u := by
  intro l
  induction l with
  | nil => intro t u w; rfl
  | cons v vs ih =>
    intro t u w
    simp only [List.foldl_cons, substStep, List.map_cons]
    rw [ih]
    congr 1
    simp [pushIfNew]

/-- Splicing right to left over a chain of non-overlapping variables keeps
every earlier offset valid: the fold equals the left-to-right rendering. -/
theorem foldl_splice_renderSpec (m : VMap) (o : ResolvedOptions) (s : Chars) :
    ∀ (vs : List Variable) (pos : Nat), ChainRel s 0 pos vs →
    vs.reverse.foldl (fun cur v =>
        cur.take v.startIndex ++ resolveVariableValue v m o ++ cur.drop (v.endIndex + 1)) s =
      s.take pos ++ renderSpec s pos vs (vs.map (fun v => resolveVariableValue v m o)) := by
  intro vs
  induction vs with
  | nil =>
    intro pos _
    simp [renderSpec, List.take_append_drop]
  | cons v vs2 ih =>
    intro pos h
    obtain ⟨h1, h2, h3, h4, h5, h6, h7⟩ := h
    rw [List.reverse_cons, List.foldl_append]
    rw [ih (v.endIndex + 1) h7]
    simp only [List.foldl_cons, List.foldl_nil]
    have hlen1 : (s.take (v.endIndex + 1)).length = v.endIndex + 1 := by
      simp only [List.length_take]
      omega
    have htake : (s.take (v.endIndex + 1) ++
        renderSpec s (v.endIndex + 1) vs2 (vs2.map (fun v => resolveVariableValue v m o))).take
          v.startIndex = s.take v.startIndex := by
      rw [List.take_append_of_le_length (by omega)]
      rw [List.take_take]
      congr 1
      omega
    have hdrop : (s.take (v.endIndex + 1) ++
        renderSpec s (v.endIndex + 1) vs2 (vs2.map (fun v => resolveVariableValue v m o))).drop
          (v.endIndex + 1) =
        renderSpec s (v.endIndex + 1) vs2 (vs2.map (fun v => resolveVariableValue v m o)) := by
      exact List.drop_left' hlen1
    rw [htake, hdrop]
    show s.take v.startIndex ++ resolveVariableValue v m o ++ _ =
      s.take pos ++ renderSpec s pos (v :: vs2) ((v :: vs2).map (fun v => resolveVariableValue v m o))
    simp only [List.map_cons, renderSpec]
    have hsplit : s.take v.startIndex = s.take pos ++ (s.drop pos).take (v.startIndex - pos) := by
      rw [← List.take_add]
      congr 1
      omega
    rw [hsplit]
    simp [List.append_assoc]

theorem foldl_pushIfNew_nodup {α : Type} [DecidableEq α] :
    ∀ (l : List α) (acc : List α), acc.Nodup → (l.foldl pushIfNew acc).Nodup := by
  intro l
  induction l with
  | nil => intro acc h; exact h
  | cons x xs ih =>
    intro acc h
    simp only [List.foldl_cons]
    refine ih _ ?_
    by_cases hx : x ∈ acc
    · simpa [pushIfNew, hx] using h
    · simp [pushIfNew, hx, List.nodup_append, h]

/-- C4: with `throwOnError` off (its default), substitution iterates the
parsed variables rightmost first, so every earlier offset stays valid: the
final text is the left-to-right rendering in which each placeholder span is
replaced by its resolved value and the literal text between placeholders is
kept, followed by the single final unescape pass; concretely,
`replace("\x7ba\x7d and \x7bb\x7d", {a: "X", b: "YY"})` yields `"X and YY"`. -/
theorem C4_substitution_right_to_left :
    (∀ (prompt : Chars) (m : VMap) (options : VariableReplacementOptions),
      (mergeOptions options).throwOnError = false →
      (replaceVariables prompt m options).replacedText =
        unescapeText (renderSpec prompt 0 (parseVariables prompt).vars
          ((parseVariables prompt).vars.map
            (fun v => resolveVariableValue v m (mergeOptions options))))) ∧
    (replaceVariables (chars "\x7ba\x7d and \x7bb\x7d")
        [(chars "a", chars "X"), (chars "b", chars "YY")] noOptions).replacedText =
      chars "X and YY" := by
  constructor
  · intro prompt m options h
    have hc1 : ¬ ((parseVariables prompt).errors ≠ [] ∧
        (mergeOptions options).throwOnError = true) := by
      simp [h]
    have hc2 : ¬ (checkCircularReferences (parseVariables prompt).vars m
        (mergeOptions options).maxCircularCheck ≠ [] ∧
        (mergeOptions options).throwOnError = true) := by
      simp [h]
    simp only [replaceVariables, if_neg hc1, if_neg hc2]
    rw [foldl_substStep_fst]
    rw [sortByStartDesc_of_ascending _ (chainRel_pairwise (parseVariables_chainRel prompt))]
    rw [foldl_splice_renderSpec m (mergeOptions options) prompt _ 0
      (parseVariables_chainRel prompt)]
    simp
  · decide

/-- C4 witness: the general rendering equation applied at the concrete
two-variable template. -/
theorem C4_witness :
    (replaceVariables (chars "\x7ba\x7d and \x7bb\x7d")
        [(chars "a", chars "X"), (chars "b", chars "YY")] noOptions).replacedText =
      unescapeText (renderSpec (chars "\x7ba\x7d and \x7bb\x7d") 0
        (parseVariables (chars "\x7ba\x7d and \x7bb\x7d")).vars
        ((parseVariables (chars "\x7ba\x7d and \x7bb\x7d")).vars.map
          (fun v => resolveVariableValue v
            [(chars "a", chars "X"), (chars "b", chars "YY")] (mergeOptions noOptions)))) :=
  C4_substitution_right_to_left.1 (chars "\x7ba\x7d and \x7bb\x7d")
    [(chars "a", chars "X"), (chars "b", chars "YY")] noOptions rfl

/-- C6 counterexample: `usedVariables` is filled while iterating in
descending `startIndex` order, so for `"\x7ba\x7d \x7bb\x7d"` it is `["b", "a"]`, not
the ascending first-occurrence order `["a", "b"]` the claim states. -/
theorem C6_counterexample :
    (replaceVariables (chars "\x7ba\x7d \x7bb\x7d")
      [(chars "a", chars "X"), (chars "b", chars "Y")] noOptions).usedVariables =
      [chars "b", chars "a"] ∧
    ([chars "b", chars "a"] : List Chars) ≠ [chars "a", chars "b"] := by
  exact ⟨by decide, by decide⟩

/-- C6 amended: with `throwOnError` off, `usedVariables` contains each
distinct parsed name exactly once (it is duplicate-free), in first-encounter
order of the rightmost-first substitution iteration — that is, the
first-occurrence deduplication of the reversed source-order name list. -/
theorem C6_used_variables_rightmost_first :
    ∀ (prompt : Chars) (m : VMap) (options : VariableReplacementOptions),
      (mergeOptions options).throwOnError = false →
      (replaceVariables prompt m options).usedVariables =
        dedupFirst (((parseVariables prompt).vars.map (·.name)).reverse) ∧
      (replaceVariables prompt m options).usedVariables.Nodup := by
  intro prompt m options h
  have hc1 : ¬ ((parseVariables prompt).errors ≠ [] ∧
      (mergeOptions options).throwOnError = true) := by
    simp [h]
  have hc2 : ¬ (checkCircularReferences (parseVariables prompt).vars m
      (mergeOptions options).maxCircularCheck ≠ [] ∧
      (mergeOptions options).throwOnError = true) := by
    simp [h]
  have hused : (replaceVariables prompt m options).usedVariables =
      dedupFirst (((parseVariables prompt).vars.map (·.name)).reverse) := by
    simp only [replaceVariables, if_neg hc1, if_neg hc2]
    rw [foldl_substStep_used]
    rw [sortByStartDesc_of_ascending _ (chainRel_pairwise (parseVariables_chainRel prompt))]
    rw [List.map_reverse]
    rfl
  refine ⟨hused, ?_⟩
  rw [hused]
  exact foldl_pushIfNew_nodup _ [] List.nodup_nil

/-- C6 witness: the amended characterisation at a concrete two-variable
template. -/
theorem C6_witness :
    (replaceVariables (chars "\x7ba\x7d \x7bb\x7d")
        [(chars "a", chars "X"), (chars "b", chars "Y")] noOptions).usedVariables =
      dedupFirst (((parseVariables (chars "\x7ba\x7d \x7bb\x7d")).vars.map (·.name)).reverse) ∧
    (replaceVariables (chars "\x7ba\x7d \x7bb\x7d")
        [(chars "a", chars "X"), (chars "b", chars "Y")] noOptions).usedVariables.Nodup :=
  C6_used_variables_rightmost_first (chars "\x7ba\x7d \x7bb\x7d")
    [(chars "a", chars "X"), (chars "b", chars "Y")] noOptions rfl

theorem segWF_start_ge : ∀ {ts : List RawTok} {i : Nat} {rest : Chars},
    SegWF i rest ts → ∀ t ∈ ts, i ≤ t.tokStart := by
  intro ts
  induction ts with
  | nil => intro i rest _ t ht; simp at ht
  | cons x ts2 ih =>
    intro i rest h t ht
    obtain ⟨pre, suf, hsplit, hstart, hstop, hlen, htail⟩ := h
    rcases List.mem_cons.mp ht with rfl | ht2
    · omega
    · have := ih htail t ht2
      omega

/-- A token never starts immediately after a backslash: the character
preceding `tokStart` in the scanned text (or the `prev` argument, for a
token at the very start) is never `\`. -/
theorem scanTokens_not_after_backslash :
    ∀ (fuel : Nat) (rest : Chars) (prev : Option Char) (i : Nat),
    rest.length < fuel → ∀ t ∈ scanTokens fuel rest prev i,
    (t.tokStart = i → prev ≠ some '\\') ∧
    (∀ q, t.tokStart = i + (q + 1) → rest[q]? ≠ some '\\') := by
  intro fuel
  induction fuel with
  | zero => intro rest prev i h; omega
  | succ fuel ih =>
    intro rest prev i h t ht
    match rest with
    | [] => simp [scanTokens] at ht
    | c :: rest2 =>
      simp only [scanTokens] at ht
      by_cases hc : c = '{' ∧ prev ≠ some '\\'
      · rw [if_pos hc] at ht
        cases hf : findCloseIdx rest2 with
        | none =>
          rw [hf] at ht
          have hlen2 : rest2.length < fuel := by simp at h; omega
          have hge := segWF_start_ge (scanTokens_segWF fuel rest2 (some c) (i + 1) hlen2) t ht
          have ihm := ih rest2 (some c) (i + 1) hlen2 t ht
          constructor
          · intro habs; omega
          · intro q hq
            match q with
            | 0 =>
              have : c ≠ '\\' := by
                have := ihm.1 (by omega)
                simpa using this
              simpa using this
            | q2 + 1 =>
              have := ihm.2 q2 (by omega)
              simpa using this
        | some j =>
          rw [hf] at ht
          rcases List.mem_cons.mp ht with rfl | htail
          · constructor
            · intro _; exact hc.2
            · intro q hq
              simp only at hq
              omega
          · have hjlt : j < rest2.length := findCloseIdx_lt_length hf
            have hlen2 : (rest2.drop (j + 1)).length < fuel := by
              simp at h ⊢; omega
            have hge := segWF_start_ge
              (scanTokens_segWF fuel (rest2.drop (j + 1)) (some '}') (i + j + 2) hlen2) t htail
            have ihm := ih (rest2.drop (j + 1)) (some '}') (i + j + 2) hlen2 t htail
            constructor
            · intro habs; omega
            · intro q hq
              have hqge : j + 1 ≤ q := by omega
              by_cases hqeq : q = j + 1
              · subst hqeq
                have hcl := findCloseIdx_close hf
                rw [List.getElem?_cons_succ, hcl]
                simp
              · have hq2 : ∃ q2, q = j + 2 + q2 := ⟨q - (j + 2), by omega⟩
                obtain ⟨q2, rfl⟩ := hq2
                have hdr := ihm.2 q2 (by omega)
                rw [List.getElem?_drop] at hdr
                have harith : j + 2 + q2 = (j + 1 + q2) + 1 := by omega
                rw [harith, List.getElem?_cons_succ]
                exact hdr
      · rw [if_neg hc] at ht
        have hlen2 : rest2.length < fuel := by simp at h; omega
        have hge := segWF_start_ge (scanTokens_segWF fuel rest2 (some c) (i + 1) hlen2) t ht
        have ihm := ih rest2 (some c) (i + 1) hlen2 t ht
        constructor
        · intro habs; omega
        · intro q hq
          match q with
          | 0 =>
            have : c ≠ '\\' := by
              have := ihm.1 (by omega)
              simpa using this
            simpa using this
          | q2 + 1 =>
            have := ihm.2 q2 (by omega)
            simpa using this

/-- Completeness of the scan: an `{` not immediately preceded by a
backslash, with a reachable close brace, always yields a token. -/
theorem scanTokens_complete :
    ∀ (fuel : Nat) (rest : Chars) (prev : Option Char) (i q j : Nat),
    rest.length < fuel →
    rest[q]? = some '{' →
    (q = 0 → prev ≠ some '\\') →
    (∀ q', q = q' + 1 → rest[q']? ≠ some '\\') →
    findCloseIdx (rest.drop (q + 1)) = some j →
    ∃ t ∈ scanTokens fuel rest prev i,
      t.tokStart = i + q ∧ t.inner = (rest.drop (q + 1)).take j := by
  intro fuel
  induction fuel with
  | zero => intro rest prev i q j h; omega
  | succ fuel ih =>
    intro rest prev i q j h hbrace hprev0 hprevq hclose
    match rest with
    | [] => simp at hbrace
    | c :: rest2 =>
      simp only [scanTokens]
      by_cases hc : c = '{' ∧ prev ≠ some '\\'
      · rw [if_pos hc]
        cases hf : findCloseIdx rest2 with
        | some j0 =>
          by_cases hq0 : q = 0
          · subst hq0
            have hj : j = j0 := by
              rw [List.drop_succ_cons, List.drop_zero] at hclose
              rw [hclose] at hf
              exact Option.some_inj.mp hf
            subst hj
            refine ⟨_, List.mem_cons_self _ _, by simp, ?_⟩
            simp
          · have hq1 : 1 ≤ q := by omega
            have hb2 : rest2[q - 1]? = some '{' := by
              have harith : q = (q - 1) + 1 := by omega
              rw [harith, List.getElem?_cons_succ] at hbrace
              exact hbrace
            have hqge : j0 + 2 ≤ q := by
              by_contra hlt
              have hcase : q - 1 < j0 ∨ q - 1 = j0 := by omega
              rcases hcase with hlt2 | heq
              · exact (findCloseIdx_before hf (q - 1) hlt2).1 hb2
              · have := findCloseIdx_close hf
                rw [← heq] at this
                rw [this] at hb2
                simp at hb2
            have hlen2 : (rest2.drop (j0 + 1)).length < fuel := by
              have hjlt : j0 < rest2.length := findCloseIdx_lt_length hf
              simp at h ⊢
              omega
            have hb3 : (rest2.drop (j0 + 1))[q - (j0 + 2)]? = some '{' := by
              rw [List.getElem?_drop]
              have harith : j0 + 1 + (q - (j0 + 2)) = q - 1 := by omega
              rw [harith]
              exact hb2
            have hp3 : ∀ q', q - (j0 + 2) = q' + 1 → (rest2.drop (j0 + 1))[q']? ≠ some '\\' := by
              intro q' hq'
              rw [List.getElem?_drop]
              have hmain := hprevq (q - 1) (by omega)
              have harith : q - 1 = (j0 + 1 + q') + 1 := by omega
              rw [harith, List.getElem?_cons_succ] at hmain
              exact hmain
            have hc3 : findCloseIdx ((rest2.drop (j0 + 1)).drop (q - (j0 + 2) + 1)) = some j := by
              rw [List.drop_drop]
              have harith : j0 + 1 + (q - (j0 + 2) + 1) = q := by omega
              rw [harith]
              have harith2 : q + 1 = q + 1 := rfl
              rw [show q + 1 = q + 1 from rfl] at hclose
              rw [List.drop_succ_cons] at hclose
              exact hclose
            obtain ⟨t, htm, hstart, hinner⟩ := ih (rest2.drop (j0 + 1)) (some '}')
              (i + j0 + 2) (q - (j0 + 2)) j hlen2 hb3 (by intro _; simp) hp3 hc3
            refine ⟨t, List.mem_cons_of_mem _ htm, by omega, ?_⟩
            rw [hinner, List.drop_drop]
            have harith : j0 + 1 + (q - (j0 + 2) + 1) = q := by omega
            rw [harith, List.drop_succ_cons]
        | none =>
          by_cases hq0 : q = 0
          · subst hq0
            rw [List.drop_succ_cons, List.drop_zero, hf] at hclose
            exact absurd hclose (by simp)
          · have hq1 : 1 ≤ q := by omega
            have hb2 : rest2[q - 1]? = some '{' := by
              have harith : q = (q - 1) + 1 := by omega
              rw [harith, List.getElem?_cons_succ] at hbrace
              exact hbrace
            have hlen2 : rest2.length < fuel := by simp at h; omega
            have hp0 : q - 1 = 0 → (some c : Option Char) ≠ some '\\' := by
              intro _
              have := hprevq 0 (by omega)
              simpa using this
            have hp3 : ∀ q', q - 1 = q' + 1 → rest2[q']? ≠ some '\\' := by
              intro q' hq'
              have := hprevq (q' + 1) (by omega)
              rwa [List.getElem?_cons_succ] at this
            have hc3 : findCloseIdx (rest2.drop (q - 1 + 1)) = some j := by
              have harith : q + 1 = (q - 1 + 1) + 1 := by omega
              rw [harith, List.drop_succ_cons] at hclose
              exact hclose
            obtain ⟨t, htm, hstart, hinner⟩ := ih rest2 (some c) (i + 1) (q - 1) j
              hlen2 hb2 hp0 hp3 hc3
            refine ⟨t, htm, by omega, ?_⟩
            rw [hinner]
            have harith : q + 1 = (q - 1 + 1) + 1 := by omega
            rw [harith, List.drop_succ_cons]
      · rw [if_neg hc]
        by_cases hq0 : q = 0
        · exfalso
          have hcc : c = '{' := by simpa [hq0] using hbrace
          exact hc ⟨hcc, hprev0 hq0⟩
        · have hq1 : 1 ≤ q := by omega
          have hb2 : rest2[q - 1]? = some '{' := by
            have harith : q = (q - 1) + 1 := by omega
            rw [harith, List.getElem?_cons_succ] at hbrace
            exact hbrace
          have hlen2 : rest2.length < fuel := by simp at h; omega
          have hp0 : q - 1 = 0 → (some c : Option Char) ≠ some '\\' := by
            intro _
            have := hprevq 0 (by omega)
            simpa using this
          have hp3 : ∀ q', q - 1 = q' + 1 → rest2[q']? ≠ some '\\' := by
            intro q' hq'
            have := hprevq (q' + 1) (by omega)
            rwa [List.getElem?_cons_succ] at this
          have hc3 : findCloseIdx (rest2.drop (q - 1 + 1)) = some j := by
            have harith : q + 1 = (q - 1 + 1) + 1 := by omega
            rw [harith, List.drop_succ_cons] at hclose
            exact hclose
          obtain ⟨t, htm, hstart, hinner⟩ := ih rest2 (some c) (i + 1) (q - 1) j
            hlen2 hb2 hp0 hp3 hc3
          refine ⟨t, htm, by omega, ?_⟩
          rw [hinner]
          have harith : q + 1 = (q - 1 + 1) + 1 := by omega
          rw [harith, List.drop_succ_cons]

theorem buildVars_of_tok : ∀ (toks : List RawTok) (t : RawTok), t ∈ toks →
    ∀ (n : Chars) (d : Option Chars), parseVariableContent t.inner = .ok n d →
    (⟨n, d, t.tokStart, t.tokStop, t.raw⟩ : Variable) ∈ (buildVars toks).1 := by
  intro toks
  induction toks with
  | nil => intro t ht; simp at ht
  | cons x ts ih =>
    intro t ht n d hok
    rcases List.mem_cons.mp ht with rfl | ht2
    · simp only [buildVars, hok]
      exact List.mem_cons_self _ _
    · have := ih t ht2 n d hok
      simp only [buildVars]
      cases hp : parseVariableContent x.inner with
      | err ty msg => simpa using this
      | ok n2 d2 => simpa using Or.inr this

theorem buildVars_mem_tok : ∀ (toks : List RawTok) (v : Variable),
    v ∈ (buildVars toks).1 → ∃ t ∈ toks, v.startIndex = t.tokStart := by
  intro toks
  induction toks with
  | nil => intro v hv; simp [buildVars] at hv
  | cons x ts ih =>
    intro v hv
    simp only [buildVars] at hv
    cases hp : parseVariableContent x.inner with
    | err ty msg =>
      rw [hp] at hv
      obtain ⟨t, ht, hts⟩ := ih v (by simpa using hv)
      exact ⟨t, List.mem_cons_of_mem _ ht, hts⟩
    | ok n d =>
      rw [hp] at hv
      rcases List.mem_cons.mp hv with rfl | hv2
      · exact ⟨x, List.mem_cons_self _ _, rfl⟩
      · obtain ⟨t, ht, hts⟩ := ih v hv2
        exact ⟨t, List.mem_cons_of_mem _ ht, hts⟩

/-- C2 counterexample: a `{` immediately preceded by an even number (two) of
backslashes is not recognized: `parseVariables "\\\\\x7bx\x7d"` yields no variable,
although the claim predicts a placeholder at that `{`. -/
theorem C2_counterexample :
    (parseVariables (chars "\\\\\x7bx\x7d")).vars = [] := by
  decide

/-- C2 amended: a placeholder token starts at a `{` that is not immediately
preceded by ANY backslash (regardless of the parity of the backslash run):
(i) no parsed variable ever starts right after a `\`, and (ii) whenever a
`{` has no `\` immediately before it, a close brace is reachable without
crossing another brace, and the enclosed content is valid, `parseVariables`
yields a `Variable` beginning at that `{`. -/
theorem C2_unescaped_brace_rule :
    (∀ (s : Chars) (v : Variable), v ∈ (parseVariables s).vars →
      ∀ q, v.startIndex = q + 1 → s[q]? ≠ some '\\') ∧
    (∀ (s : Chars) (q j : Nat) (n : Chars) (d : Option Chars),
      s[q]? = some '{' →
      (∀ q', q = q' + 1 → s[q']? ≠ some '\\') →
      findCloseIdx (s.drop (q + 1)) = some j →
      parseVariableContent ((s.drop (q + 1)).take j) = .ok n d →
      ∃ v ∈ (parseVariables s).vars,
        v.startIndex = q ∧ v.name = n ∧ v.defaultValue = d) := by
  constructor
  · intro s v hv q hq
    have hv2 : v ∈ (buildVars (scanTokens (s.length + 1) s none 0)).1 := hv
    obtain ⟨t, htm, hts⟩ := buildVars_mem_tok _ v hv2
    exact (scanTokens_not_after_backslash (s.length + 1) s none 0 (by omega) t htm).2 q
      (by omega)
  · intro s q j n d hb hp hcl hok
    obtain ⟨t, htm, hstart, hinner⟩ := scanTokens_complete (s.length + 1) s none 0 q j
      (by omega) hb (fun _ => by simp) hp hcl
    have hmem := buildVars_of_tok _ t htm n d (by rw [hinner]; exact hok)
    refine ⟨⟨n, d, t.tokStart, t.tokStop, t.raw⟩, hmem, by simp [hstart], rfl, rfl⟩

/-- C2 witness: the rule at concrete inputs — `"ab\x7bx\x7d"` yields a variable at
index 2, and the variable of `"a\x7bx\x7d"` does not follow a backslash. -/
theorem C2_witness :
    (∃ v ∈ (parseVariables (chars "ab\x7bx\x7d")).vars,
      v.startIndex = 2 ∧ v.name = chars "x" ∧ v.defaultValue = none) ∧
    (chars "a\x7bx\x7d")[0]? ≠ some '\\' := by
  constructor
  · exact C2_unescaped_brace_rule.2 (chars "ab\x7bx\x7d") 2 1 (chars "x") none
      (by decide)
      (by
        intro q' hq'
        have hq1 : q' = 1 := by omega
        subst hq1
        decide)
      (by decide) (by decide)
  · exact C2_unescaped_brace_rule.1 (chars "a\x7bx\x7d")
      ⟨chars "x", none, 1, 3, chars "\x7bx\x7d"⟩ (by decide) 0 rfl
